import Mathlib

/- Verification development for gladius-network-gateway.

Part 1 shallowly embeds pkg/gateway/routing.go: the configuration values read
through viper, the route table built by addRoutes, the startup sequence of
Start, and the effect traces of initializeConfigWallet and autojoinPool.
Part 2 models the peer state synchronization core (state store with signature
ledger, and the content diff resolver) from the specification, since that code
lives outside this repository's source tree. -/

/- Configuration values read through viper in routing.go. -/
structure Config where
  nodeManagerDebug : Bool
  httpProfiler : Bool
  poolAutoJoin : Bool
  poolAddress : String
  poolURL : String
  walletPassphrase : String

/- The handler functions bound by HandleFunc calls in addRoutes. -/
inductive Handler where
  | createSignedMessage
  | verifySignedMessage
  | join
  | leave
  | pushStateMessage
  | getFullState
  | getNodeState
  | getSignatureList
  | getContentNeeded
  | getContentLinks
  | setStateDebug
  | nodeViewAllApplications
  | nodeNewApplication
  | nodeViewApplication
  | poolPublicData
  | marketPools
deriving DecidableEq

/- A route registration: full path, allowed methods ([] when no Methods
restriction is applied), and the bound handler (none models a nil handler
function). -/
structure Route where
  path : String
  methods : List String
  handler : Option Handler
deriving DecidableEq

/- The route table registered by Gateway.addRoutes, in registration order.
Registrations delegated to the external gladius-common library
(AppendVersionEndpoints, AppendAccountManagementEndpoints,
AppendWalletManagementEndpoints, AppendStatusEndpoints) are library code
outside this repository and are not part of the table. The mux path template
braces are written with escapes. -/
def addRoutes (cfg : Config) : List Route :=
  [ ⟨"/api/p2p/message/sign", ["POST"], some .createSignedMessage⟩,
    ⟨"/api/p2p/message/verify", ["POST"], some .verifySignedMessage⟩,
    ⟨"/api/p2p/network/join", ["POST"], some .join⟩,
    ⟨"/api/p2p/network/leave", ["POST"], some .leave⟩,
    ⟨"/api/p2p/state/push_message", ["POST"], some .pushStateMessage⟩,
    ⟨"/api/p2p/state", ["GET"], some .getFullState⟩,
    ⟨"/api/p2p/state/node/\x7bnode_address\x7d", ["GET"], some .getNodeState⟩,
    ⟨"/api/p2p/state/signatures", ["GET"], some .getSignatureList⟩,
    ⟨"/api/p2p/state/content_diff", ["POST"], some .getContentNeeded⟩,
    ⟨"/api/p2p/state/content_links", ["POST"], some .getContentLinks⟩ ]
  ++ (if cfg.nodeManagerDebug then
        [ ⟨"/api/p2p/state/set_state", ["POST"], some .setStateDebug⟩ ]
      else [])
  ++
  [ ⟨"/api/node/applications", ["GET"], some .nodeViewAllApplications⟩,
    ⟨"/api/node/applications/\x7bpoolAddress:0[xX][0-9a-fA-F]\x7b40\x7d\x7d/new",
      ["POST"], some .nodeNewApplication⟩,
    ⟨"/api/node/applications/\x7bpoolAddress:0[xX][0-9a-fA-F]\x7b40\x7d\x7d/view",
      ["GET"], some .nodeViewApplication⟩,
    ⟨"/api/pool/", [], none⟩,
    ⟨"/api/pool/\x7bpoolAddress:0[xX][0-9a-fA-F]\x7b40\x7d\x7d",
      ["GET"], some .poolPublicData⟩,
    ⟨"/api/market/pools", [], some .marketPools⟩ ]

/- The steps Gateway.Start performs, in program order. listenAndServe is the
launch of the HTTP listener goroutine; addLogging and useResponseMiddleware
are the two middleware installations done by addMiddleware. -/
inductive StartStep where
  | addLogging
  | useResponseMiddleware
  | addRoutesStep
  | initializeConfigWalletStep
  | strictSlash
  | listenAndServe
  | startProfiler
  | autojoinPoolStep
  | logStarted
deriving DecidableEq

/- The sequence of steps executed by Gateway.Start. -/
def Start (cfg : Config) : List StartStep :=
  [ .addLogging, .useResponseMiddleware, .addRoutesStep,
    .initializeConfigWalletStep, .strictSlash, .listenAndServe ]
  ++ (if cfg.httpProfiler then [ .startProfiler ] else [])
  ++ [ .autojoinPoolStep, .logStarted ]

/- Observable effects of Gateway.initializeConfigWallet. -/
inductive WalletEffect where
  | createAccount (passphrase : String)
  | logCreateFailed
  | logCreated
  | unlockAccount (passphrase : String)
  | logUnlockFailed
  | logUnlocked
  | logNotUnlocked
deriving DecidableEq

/- Effect trace of Gateway.initializeConfigWallet. hasAccount is the result of
ga.HasAccount(), createErr whether ga.CreateAccount returned an error, and
unlocked/unlockErr the two results of ga.UnlockAccount. -/
def initializeConfigWallet (cfg : Config) (hasAccount createErr unlocked unlockErr : Bool) :
    List WalletEffect :=
  if cfg.walletPassphrase ≠ "" then
    (if !hasAccount then
      [ .createAccount cfg.walletPassphrase ]
        ++ (if createErr then [ .logCreateFailed ] else [ .logCreated ])
     else [])
    ++ [ .unlockAccount cfg.walletPassphrase ]
    ++ (if unlockErr then [ .logUnlockFailed ] else [])
    ++ (if unlocked then [ .logUnlocked ] else [ .logNotUnlocked ])
  else []

/- Observable effects of Gateway.autojoinPool. -/
inductive JoinEffect where
  | logBlankConfig
  | logWalletLocked
  | applyToPool (address : String)
deriving DecidableEq

/- Effect trace of Gateway.autojoinPool. unlocked is the result of
ga.Unlocked(). -/
def autojoinPool (cfg : Config) (unlocked : Bool) : List JoinEffect :=
  if !cfg.poolAutoJoin then []
  else if cfg.poolAddress ++ cfg.poolURL = "" then [ .logBlankConfig ]
  else if !unlocked then [ .logWalletLocked ]
  else [ .applyToPool cfg.poolAddress ]

/- A fixed sample configuration used to instantiate theorems with hypotheses. -/
def sampleConfig : Config :=
  ⟨false, false, true, "0xPool", "http://pool", "pass"⟩

/- A configuration with autojoin on, a blank pool address and a nonempty pool
URL, used to instantiate guard theorems. -/
def blankAddrConfig : Config :=
  ⟨false, false, true, "", "http://pool", ""⟩

/-- C1: The debug state-override endpoint is registered only when the
NodeManager.Config.Debug flag is true: for every configuration in which that
flag is false, addRoutes registers no route for /api/p2p/state/set_state, so
the SetState operation is unreachable. -/
theorem C1_setState_route_only_when_debug (cfg : Config)
    (hdbg : cfg.nodeManagerDebug = false) :
    ∀ r ∈ addRoutes cfg, r.path ≠ "/api/p2p/state/set_state" := by
  rw [addRoutes, hdbg]
  decide

theorem C1_setState_route_only_when_debug_witness :
    sampleConfig.nodeManagerDebug = false ∧
    (⟨"/api/pool/", [], none⟩ : Route).path ≠ "/api/p2p/state/set_state" :=
  ⟨rfl, C1_setState_route_only_when_debug sampleConfig rfl
      ⟨"/api/pool/", [], none⟩ (by decide)⟩

/-- C2: Autojoin is gated on the wallet being unlocked: for every configuration
with Pool.AutoJoin true and a non-blank pool address/URL, if the wallet is
locked then autojoinPool only logs the locked-wallet error and never calls
ApplyToPool, so the join is aborted with no membership change. -/
theorem C2_autojoin_requires_unlocked_wallet (cfg : Config)
    (hauto : cfg.poolAutoJoin = true)
    (hblank : cfg.poolAddress ++ cfg.poolURL ≠ "") :
    autojoinPool cfg false = [ .logWalletLocked ] ∧
    ∀ a, JoinEffect.applyToPool a ∉ autojoinPool cfg false := by
  have h : autojoinPool cfg false = [ .logWalletLocked ] := by
    simp [autojoinPool, hauto, hblank]
  refine ⟨h, ?_⟩
  intro a hmem
  rw [h] at hmem
  simp at hmem

theorem C2_autojoin_requires_unlocked_wallet_witness :
    sampleConfig.poolAutoJoin = true ∧
    sampleConfig.poolAddress ++ sampleConfig.poolURL ≠ "" ∧
    autojoinPool sampleConfig false = [ .logWalletLocked ] :=
  ⟨rfl, by decide,
    (C2_autojoin_requires_unlocked_wallet sampleConfig rfl (by decide)).1⟩

/-- C3: Every boundary operation of the external interface is registered under
the /api/p2p prefix with the stated method: sign, verify, join, leave,
push_message, content_diff and content_links as POST, and full state, per-node
state and the signature list as GET; in particular the content diff is exposed
as a single POST. -/
theorem C3_boundary_routes_registered (cfg : Config) :
    (⟨"/api/p2p/message/sign", ["POST"], some .createSignedMessage⟩ : Route) ∈ addRoutes cfg ∧
    (⟨"/api/p2p/message/verify", ["POST"], some .verifySignedMessage⟩ : Route) ∈ addRoutes cfg ∧
    (⟨"/api/p2p/network/join", ["POST"], some .join⟩ : Route) ∈ addRoutes cfg ∧
    (⟨"/api/p2p/network/leave", ["POST"], some .leave⟩ : Route) ∈ addRoutes cfg ∧
    (⟨"/api/p2p/state/push_message", ["POST"], some .pushStateMessage⟩ : Route) ∈ addRoutes cfg ∧
    (⟨"/api/p2p/state/content_diff", ["POST"], some .getContentNeeded⟩ : Route) ∈ addRoutes cfg ∧
    (⟨"/api/p2p/state/content_links", ["POST"], some .getContentLinks⟩ : Route) ∈ addRoutes cfg ∧
    (⟨"/api/p2p/state", ["GET"], some .getFullState⟩ : Route) ∈ addRoutes cfg ∧
    (⟨"/api/p2p/state/node/\x7bnode_address\x7d", ["GET"], some .getNodeState⟩ : Route)
      ∈ addRoutes cfg ∧
    (⟨"/api/p2p/state/signatures", ["GET"], some .getSignatureList⟩ : Route) ∈ addRoutes cfg := by
  cases hd : cfg.nodeManagerDebug <;> rw [addRoutes, hd] <;> decide

/-- C7: Every invocation of Start applies the logging and response middleware
and registers all routes before the HTTP server begins listening, and runs
the configuration-driven wallet creation/unlock before autojoinPool performs
its wallet-unlocked check. -/
theorem C7_start_ordering (cfg : Config) :
    ((Start cfg).indexOf .addLogging < (Start cfg).indexOf .listenAndServe) ∧
    ((Start cfg).indexOf .useResponseMiddleware < (Start cfg).indexOf .listenAndServe) ∧
    ((Start cfg).indexOf .addRoutesStep < (Start cfg).indexOf .listenAndServe) ∧
    ((Start cfg).indexOf .initializeConfigWalletStep < (Start cfg).indexOf .autojoinPoolStep) := by
  cases hp : cfg.httpProfiler <;> rw [Start, hp] <;> decide

/-- C8: autojoinPool's blank-configuration guard fires only when both pool
settings are empty: with autojoin enabled it aborts with the blank-config
error exactly when Pool.Address ++ Pool.URL is the empty string (equivalently,
both are empty); when the concatenation is nonempty it proceeds to the wallet
check, and with an unlocked wallet calls ApplyToPool with the possibly empty
Pool.Address. -/
theorem C8_blank_guard_both_empty (cfg : Config) (unlocked : Bool)
    (hauto : cfg.poolAutoJoin = true) :
    (cfg.poolAddress ++ cfg.poolURL = "" ↔ cfg.poolAddress = "" ∧ cfg.poolURL = "") ∧
    (cfg.poolAddress ++ cfg.poolURL = "" → autojoinPool cfg unlocked = [ .logBlankConfig ]) ∧
    (cfg.poolAddress ++ cfg.poolURL ≠ "" →
      autojoinPool cfg unlocked =
        if unlocked then [ .applyToPool cfg.poolAddress ] else [ .logWalletLocked ]) := by
  refine ⟨?_, ?_, ?_⟩
  · constructor
    · intro h
      have hd : cfg.poolAddress.data ++ cfg.poolURL.data = [] := by
        have := congrArg String.data h
        simpa [String.data_append] using this
      rcases List.append_eq_nil.mp hd with ⟨h1, h2⟩
      exact ⟨String.ext h1, String.ext h2⟩
    · rintro ⟨h1, h2⟩
      rw [h1, h2]
      rfl
  · intro h
    simp [autojoinPool, hauto, h]
  · intro h
    cases unlocked <;> simp [autojoinPool, hauto, h]

theorem C8_blank_guard_both_empty_witness :
    blankAddrConfig.poolAutoJoin = true ∧
    (blankAddrConfig.poolAddress ++ blankAddrConfig.poolURL ≠ "" →
      autojoinPool blankAddrConfig true =
        if true then [ .applyToPool blankAddrConfig.poolAddress ]
        else [ .logWalletLocked ]) :=
  ⟨rfl, (C8_blank_guard_both_empty blankAddrConfig true rfl).2.2⟩

/-- C9: When the configured Wallet.Passphrase is empty, initializeConfigWallet
performs no side effects at all; when it is non-empty, an account is created
exactly when none exists, and the unlock is attempted unconditionally
afterwards even if account creation failed. -/
theorem C9_config_wallet_effects (cfg : Config)
    (hasAccount createErr unlocked unlockErr : Bool) :
    (cfg.walletPassphrase = "" →
      initializeConfigWallet cfg hasAccount createErr unlocked unlockErr = []) ∧
    (cfg.walletPassphrase ≠ "" →
      ((WalletEffect.createAccount cfg.walletPassphrase ∈
          initializeConfigWallet cfg hasAccount createErr unlocked unlockErr) ↔
        hasAccount = false) ∧
      WalletEffect.unlockAccount cfg.walletPassphrase ∈
        initializeConfigWallet cfg hasAccount createErr unlocked unlockErr) := by
  constructor
  · intro h
    simp [initializeConfigWallet, h]
  · intro h
    cases hasAccount <;> cases createErr <;> cases unlocked <;> cases unlockErr <;>
      simp [initializeConfigWallet, h]

theorem C9_config_wallet_effects_witness :
    sampleConfig.walletPassphrase ≠ "" ∧
    (((WalletEffect.createAccount sampleConfig.walletPassphrase ∈
        initializeConfigWallet sampleConfig false true false true) ↔ false = false) ∧
      WalletEffect.unlockAccount sampleConfig.walletPassphrase ∈
        initializeConfigWallet sampleConfig false true false true) :=
  ⟨by decide, (C9_config_wallet_effects sampleConfig false true false true).2 (by decide)⟩

/-- C10: The pool root route /api/pool/ is registered with a nil handler for
every configuration, and it is the only registered route whose handler is
nil. -/
theorem C10_pool_root_nil_handler (cfg : Config) :
    (⟨"/api/pool/", [], none⟩ : Route) ∈ addRoutes cfg ∧
    ∀ r ∈ addRoutes cfg, r.handler = none → r.path = "/api/pool/" := by
  cases hd : cfg.nodeManagerDebug <;> rw [addRoutes, hd] <;> decide

theorem C10_pool_root_nil_handler_witness :
    (⟨"/api/pool/", [], none⟩ : Route) ∈ addRoutes sampleConfig ∧
    (⟨"/api/pool/", [], none⟩ : Route).path = "/api/pool/" :=
  ⟨(C10_pool_root_nil_handler sampleConfig).1,
    (C10_pool_root_nil_handler sampleConfig).2 ⟨"/api/pool/", [], none⟩
      (by decide) rfl⟩

/- Part 2: the peer state synchronization core. The implementation of this
core is not in this repository's source tree (only its HTTP wiring is), so it
is modelled from the specification. -/

/-- Modelled from the spec: a StateMessage is
`\x7bsenderAddress, sequence, rootHash, signature\x7d`, immutable once
created. -/
structure StateMessage where
  senderAddress : String
  sequence : Nat
  rootHash : String
  signature : String
deriving DecidableEq

/-- Modelled from the spec: a NodeStateRecord stores the latest accepted
StateMessage for an address (its sequence, root hash and signature). -/
structure NodeStateRecord where
  sequence : Nat
  rootHash : String
  signature : String
deriving DecidableEq

/-- Modelled from the spec: an append-only SignatureLedgerEntry recorded for
each accepted StateMessage. -/
structure SignatureLedgerEntry where
  nodeAddress : String
  sequence : Nat
  signature : String
deriving DecidableEq

/-- Modelled from the spec: the State Store holds one NodeStateRecord per
address plus the append-only signature ledger. -/
structure StateStore where
  records : List (String × NodeStateRecord)
  ledger : List SignatureLedgerEntry
deriving DecidableEq

/- Association-list lookup of a node state record by address. -/
def lookupRecord : List (String × NodeStateRecord) → String → Option NodeStateRecord
  | [], _ => none
  | (k, v) :: rest, a => if a = k then some v else lookupRecord rest a

/- Association-list update replacing (or inserting) the record of an address. -/
def setRecord : List (String × NodeStateRecord) → String → NodeStateRecord →
    List (String × NodeStateRecord)
  | [], a, r => [(a, r)]
  | (k, v) :: rest, a, r => if a = k then (a, r) :: rest else (k, v) :: setRecord rest a r

/-- Modelled from the spec: `Get(address) -> NodeStateRecord or not-found`. -/
def StateStore.get (s : StateStore) (address : String) : Option NodeStateRecord :=
  lookupRecord s.records address

/-- Modelled from the spec: result of Merge. -/
inductive MergeResult where
  | accepted
  | rejectedStale
  | rejectedInvalidSignature
deriving DecidableEq

/- Accepting a message: replace the sender's record and append to the ledger. -/
def acceptMessage (s : StateStore) (msg : StateMessage) : StateStore :=
  { records := setRecord s.records msg.senderAddress
      ⟨msg.sequence, msg.rootHash, msg.signature⟩,
    ledger := s.ledger ++ [ ⟨msg.senderAddress, msg.sequence, msg.signature⟩ ] }

/-- Modelled from the spec: `Merge(msg)` verifies the signature via the
Signing Gateway (passed in as the verify oracle); if valid and the sequence is
strictly greater than the current record's (or no record exists), replaces the
record and appends to the ledger; otherwise rejects as stale; an invalid
signature is always rejected and never merged, regardless of sequence. -/
def Merge (verify : StateMessage → Bool) (s : StateStore) (msg : StateMessage) :
    MergeResult × StateStore :=
  if verify msg then
    match s.get msg.senderAddress with
    | some r =>
        if r.sequence < msg.sequence then (.accepted, acceptMessage s msg)
        else (.rejectedStale, s)
    | none => (.accepted, acceptMessage s msg)
  else (.rejectedInvalidSignature, s)

/- Folding Merge over a list of inbound messages. -/
def mergeAll (verify : StateMessage → Bool) (s : StateStore) : List StateMessage → StateStore
  | [] => s
  | m :: rest => mergeAll verify (Merge verify s m).2 rest

/- The store with no records and an empty ledger. -/
def emptyStore : StateStore :=
  ⟨[], []⟩

/- The sequence currently stored for an address, if any. -/
def getSeq (s : StateStore) (a : String) : Option Nat :=
  (s.get a).map NodeStateRecord.sequence

/- Maximum of an optional current value and a new value. -/
def omaxN : Option Nat → Nat → Option Nat
  | none, n => some n
  | some m, n => some (Nat.max m n)

/- Running maximum of the sequences of the validly signed messages of a list. -/
def foldMaxSeq (verify : StateMessage → Bool) : List StateMessage → Option Nat → Option Nat
  | [], acc => acc
  | m :: rest, acc => foldMaxSeq verify rest (if verify m then omaxN acc m.sequence else acc)

/- The maximum sequence among the validly signed messages of a list. -/
def maxValidSeq (verify : StateMessage → Bool) (msgs : List StateMessage) : Option Nat :=
  foldMaxSeq verify msgs none

/- Ordering on optional sequences: absent is below everything. -/
def optNatLE : Option Nat → Option Nat → Prop
  | none, _ => True
  | some n, o => ∃ k, o = some k ∧ n ≤ k

theorem optNatLE_refl (o : Option Nat) : optNatLE o o := by
  cases o with
  | none => trivial
  | some n => exact ⟨n, rfl, Nat.le_refl n⟩

theorem lookupRecord_setRecord_self (l : List (String × NodeStateRecord))
    (a : String) (r : NodeStateRecord) :
    lookupRecord (setRecord l a r) a = some r := by
  induction l with
  | nil => simp [setRecord, lookupRecord]
  | cons kv rest ih =>
    rcases kv with ⟨k, v⟩
    by_cases h : a = k
    · simp [setRecord, lookupRecord, h]
    · simp [setRecord, lookupRecord, h, ih]

theorem lookupRecord_setRecord_other (l : List (String × NodeStateRecord))
    (a b : String) (r : NodeStateRecord) (hab : a ≠ b) :
    lookupRecord (setRecord l b r) a = lookupRecord l a := by
  induction l with
  | nil => simp [setRecord, lookupRecord, hab]
  | cons kv rest ih =>
    rcases kv with ⟨k, v⟩
    by_cases h : b = k
    · subst h
      simp [setRecord, lookupRecord, hab]
    · by_cases h2 : a = k
      · simp [setRecord, lookupRecord, h, h2]
      · simp [setRecord, lookupRecord, h, h2, ih]

theorem getSeq_acceptMessage (s : StateStore) (msg : StateMessage) :
    getSeq (acceptMessage s msg) msg.senderAddress = some msg.sequence := by
  simp [getSeq, acceptMessage, StateStore.get, lookupRecord_setRecord_self]

theorem getSeq_merge_step (verify : StateMessage → Bool) (s : StateStore)
    (m : StateMessage) :
    getSeq (Merge verify s m).2 m.senderAddress =
      if verify m then omaxN (getSeq s m.senderAddress) m.sequence
      else getSeq s m.senderAddress := by
  cases hv : verify m with
  | false => simp [Merge, hv]
  | true =>
    cases hg : s.get m.senderAddress with
    | none =>
      have h2 : (Merge verify s m).2 = acceptMessage s m := by
        simp [Merge, hv, hg]
      rw [h2, getSeq_acceptMessage]
      simp [hv, getSeq, hg, omaxN]
    | some r =>
      by_cases hlt : r.sequence < m.sequence
      · have h2 : (Merge verify s m).2 = acceptMessage s m := by
          simp [Merge, hv, hg, hlt]
        rw [h2, getSeq_acceptMessage]
        simp [hv, getSeq, hg, omaxN, Nat.max_eq_right (Nat.le_of_lt hlt)]
      · have h2 : (Merge verify s m).2 = s := by
          simp [Merge, hv, hg, hlt]
        rw [h2]
        simp [hv, getSeq, hg, omaxN, Nat.max_eq_left (Nat.le_of_not_lt hlt)]

theorem getSeq_mergeAll (verify : StateMessage → Bool) (a : String) :
    ∀ (msgs : List StateMessage) (s : StateStore),
      (∀ m ∈ msgs, m.senderAddress = a) →
      getSeq (mergeAll verify s msgs) a = foldMaxSeq verify msgs (getSeq s a) := by
  intro msgs
  induction msgs with
  | nil => intro s _; rfl
  | cons m rest ih =>
    intro s hall
    have hm : m.senderAddress = a := hall m (List.mem_cons_self m rest)
    have hrest : ∀ m' ∈ rest, m'.senderAddress = a := by
      intro m' hm'
      exact hall m' (List.mem_cons_of_mem m hm')
    have hstep : getSeq (Merge verify s m).2 a =
        if verify m then omaxN (getSeq s a) m.sequence else getSeq s a := by
      rw [← hm]
      exact getSeq_merge_step verify s m
    calc getSeq (mergeAll verify s (m :: rest)) a
        = getSeq (mergeAll verify (Merge verify s m).2 rest) a := rfl
      _ = foldMaxSeq verify rest (getSeq (Merge verify s m).2 a) := ih _ hrest
      _ = foldMaxSeq verify (m :: rest) (getSeq s a) := by rw [hstep]; rfl

theorem getSeq_acceptMessage_other (s : StateStore) (msg : StateMessage)
    (a : String) (ha : a ≠ msg.senderAddress) :
    getSeq (acceptMessage s msg) a = getSeq s a := by
  simp [getSeq, acceptMessage, StateStore.get,
    lookupRecord_setRecord_other _ _ _ _ ha]

theorem merge_snd_cases (verify : StateMessage → Bool) (s : StateStore)
    (m : StateMessage) :
    (Merge verify s m).2 = s ∨ (Merge verify s m).2 = acceptMessage s m := by
  cases hv : verify m with
  | false => left; simp [Merge, hv]
  | true =>
    cases hg : s.get m.senderAddress with
    | none => right; simp [Merge, hv, hg]
    | some r =>
      by_cases hlt : r.sequence < m.sequence
      · right; simp [Merge, hv, hg, hlt]
      · left; simp [Merge, hv, hg, hlt]

theorem getSeq_merge_mono (verify : StateMessage → Bool) (s : StateStore)
    (m : StateMessage) (a : String) :
    optNatLE (getSeq s a) (getSeq (Merge verify s m).2 a) := by
  by_cases ha : a = m.senderAddress
  · subst ha
    rw [getSeq_merge_step]
    cases hv : verify m with
    | false => simp [optNatLE_refl]
    | true =>
      simp only [if_pos]
      cases hg : getSeq s m.senderAddress with
      | none => simp [optNatLE]
      | some n =>
        simp only [omaxN, optNatLE]
        exact ⟨Nat.max n m.sequence, rfl, Nat.le_max_left n m.sequence⟩
  · rcases merge_snd_cases verify s m with h | h
    · rw [h]
      exact optNatLE_refl _
    · rw [h, getSeq_acceptMessage_other s m a ha]
      exact optNatLE_refl _

theorem merge_stale (verify : StateMessage → Bool) (s : StateStore)
    (m : StateMessage) (r : NodeStateRecord) (hv : verify m = true)
    (hg : s.get m.senderAddress = some r) (hle : m.sequence ≤ r.sequence) :
    Merge verify s m = (.rejectedStale, s) := by
  have hlt : ¬ r.sequence < m.sequence := Nat.not_lt.mpr hle
  simp [Merge, hv, hg, hlt]

/- A verify oracle accepting every signature, for concrete instantiations. -/
def verifyAll : StateMessage → Bool := fun _ => true

/- A verify oracle rejecting every signature, for concrete instantiations. -/
def verifyNone : StateMessage → Bool := fun _ => false

/- Concrete messages from node 0xA used in witnesses. -/
def msgA1 : StateMessage := ⟨"0xA", 1, "H1", "sigA1"⟩

def msgA2 : StateMessage := ⟨"0xA", 2, "H2", "sigA2"⟩

/-- C4: Per-address sequence monotonicity: a Merge step never decreases the
stored sequence of any address; folding Merge over same-sender messages
starting from an empty store leaves the stored sequence equal to the maximum
sequence among the validly signed messages; and a validly signed message whose
sequence is not strictly greater than the current record's is rejected as
stale and leaves the store unchanged. -/
theorem C4_sequence_monotonicity (verify : StateMessage → Bool) :
    (∀ (s : StateStore) (m : StateMessage) (a : String),
      optNatLE (getSeq s a) (getSeq (Merge verify s m).2 a)) ∧
    (∀ (msgs : List StateMessage) (a : String),
      (∀ m ∈ msgs, m.senderAddress = a) →
      getSeq (mergeAll verify emptyStore msgs) a = maxValidSeq verify msgs) ∧
    (∀ (s : StateStore) (m : StateMessage) (r : NodeStateRecord),
      verify m = true → s.get m.senderAddress = some r → m.sequence ≤ r.sequence →
      Merge verify s m = (.rejectedStale, s)) := by
  refine ⟨getSeq_merge_mono verify, ?_, merge_stale verify⟩
  intro msgs a hall
  rw [getSeq_mergeAll verify a msgs emptyStore hall]
  rfl

theorem C4_sequence_monotonicity_witness :
    (∀ m ∈ [msgA1, msgA2, msgA1], m.senderAddress = "0xA") ∧
    getSeq (mergeAll verifyAll emptyStore [msgA1, msgA2, msgA1]) "0xA" =
      maxValidSeq verifyAll [msgA1, msgA2, msgA1] :=
  ⟨by decide,
    (C4_sequence_monotonicity verifyAll).2.1 [msgA1, msgA2, msgA1] "0xA" (by decide)⟩

/-- C6: Rejection isolation: for every store and every StateMessage whose
signature fails verification, Merge rejects the message as invalid-signature,
Get is unchanged at every address, and no SignatureLedgerEntry is appended,
regardless of the message's sequence number. -/
theorem C6_rejection_isolation (verify : StateMessage → Bool) (s : StateStore)
    (msg : StateMessage) (hv : verify msg = false) :
    (Merge verify s msg).1 = .rejectedInvalidSignature ∧
    (∀ a, (Merge verify s msg).2.get a = s.get a) ∧
    (Merge verify s msg).2.ledger = s.ledger := by
  have h : Merge verify s msg = (.rejectedInvalidSignature, s) := by
    simp [Merge, hv]
  rw [h]
  exact ⟨rfl, fun _ => rfl, rfl⟩

theorem C6_rejection_isolation_witness :
    verifyNone msgA1 = false ∧
    ((Merge verifyNone emptyStore msgA1).1 = .rejectedInvalidSignature ∧
      (∀ a, (Merge verifyNone emptyStore msgA1).2.get a = emptyStore.get a) ∧
      (Merge verifyNone emptyStore msgA1).2.ledger = emptyStore.ledger) :=
  ⟨rfl, C6_rejection_isolation verifyNone emptyStore msgA1 rfl⟩

/- Part 2 continued: the Diff Resolver, modelled from the spec. The Content
Store's link index is an association list from a block's hash to its child
hashes; a hash without an entry has no recorded children. -/

/- Child hashes recorded for a block in the link index. -/
def lookupChildren : List (String × List String) → String → List String
  | [], _ => []
  | (k, v) :: rest, h => if h = k then v else lookupChildren rest h

/-- Modelled from the spec: the traversal underlying `Missing`. A hash in
`known` prunes its whole subtree; otherwise the hash is missing and its
children (from the local link index, an unknown hash having none) are
traversed. The spec fixes the result to be a set, with visiting order
irrelevant, so the traversal is modelled recursively with a depth bound. -/
def missingFrom (store : List (String × List String)) (known : List String) :
    Nat → String → List String
  | 0, _ => []
  | fuel + 1, h =>
      if h ∈ known then []
      else h :: (lookupChildren store h).flatMap (missingFrom store known fuel)

/-- Modelled from the spec: `Missing(target, known)` computes the set of
hashes reachable from `target` without passing through a known hash; the
depth bound `store.length + 1` covers every DAG over the store. -/
def Missing (store : List (String × List String)) (root : String)
    (known : List String) : List String :=
  missingFrom store known (store.length + 1) root

/-- Modelled from the spec: reachability in the DAG induced by the link
index. -/
inductive ReachableFrom (store : List (String × List String)) :
    String → String → Prop
  | refl (h : String) : ReachableFrom store h h
  | step {a b c : String} (hb : b ∈ lookupChildren store a)
      (hr : ReachableFrom store b c) : ReachableFrom store a c

theorem lookupChildren_mem (store : List (String × List String)) (h c : String)
    (hc : c ∈ lookupChildren store h) :
    ∃ l, (h, l) ∈ store ∧ c ∈ l := by
  induction store with
  | nil => simp [lookupChildren] at hc
  | cons kv rest ih =>
    rcases kv with ⟨k, v⟩
    by_cases hk : h = k
    · subst hk
      simp [lookupChildren] at hc
      exact ⟨v, List.mem_cons_self _ _, hc⟩
    · simp [lookupChildren, hk] at hc
      rcases ih hc with ⟨l, hl, hcl⟩
      exact ⟨l, List.mem_cons_of_mem _ hl, hcl⟩

theorem rank_child_lt (store : List (String × List String)) (rank : String → Nat)
    (hrank : ∀ p ∈ store, ∀ c ∈ p.2, rank c < rank p.1) (h c : String)
    (hc : c ∈ lookupChildren store h) : rank c < rank h := by
  rcases lookupChildren_mem store h c hc with ⟨l, hl, hcl⟩
  exact hrank (h, l) hl c hcl

theorem missingFrom_sound (store : List (String × List String))
    (known : List String) :
    ∀ (fuel : Nat) (a h : String), h ∈ missingFrom store known fuel a →
      ReachableFrom store a h := by
  intro fuel
  induction fuel with
  | zero => intro a h hh; simp [missingFrom] at hh
  | succ f ih =>
    intro a h hh
    by_cases hk : a ∈ known
    · simp [missingFrom, hk] at hh
    · simp only [missingFrom, if_neg hk, List.mem_cons] at hh
      rcases hh with rfl | hh
      · exact ReachableFrom.refl h
      · rcases List.mem_flatMap.mp hh with ⟨b, hb, hmem⟩
        exact ReachableFrom.step hb (ih b h hmem)

theorem missingFrom_complete (store : List (String × List String))
    (rank : String → Nat)
    (hrank : ∀ p ∈ store, ∀ c ∈ p.2, rank c < rank p.1) (a h : String)
    (hr : ReachableFrom store a h) :
    ∀ fuel : Nat, rank a < fuel → h ∈ missingFrom store [] fuel a := by
  induction hr with
  | refl h =>
    intro fuel hf
    cases fuel with
    | zero => exact absurd hf (Nat.not_lt_zero _)
    | succ f => simp [missingFrom]
  | @step a b c hb _ ih =>
    intro fuel hf
    cases fuel with
    | zero => exact absurd hf (Nat.not_lt_zero _)
    | succ f =>
      have hba : rank b < rank a := rank_child_lt store rank hrank a b hb
      have hbf : rank b < f := Nat.lt_of_lt_of_le hba (Nat.lt_succ_iff.mp hf)
      simp only [missingFrom, List.not_mem_nil, if_neg]
      refine List.mem_cons_of_mem a (List.mem_flatMap.mpr ⟨b, hb, ih f hbf⟩)

/- The example DAG of the spec: H1 has children H2 and H3, and H3 has child
H4. -/
def exampleStore : List (String × List String) :=
  [("H1", ["H2", "H3"]), ("H3", ["H4"])]

/- A topological rank witnessing that the example store is a DAG. -/
def exampleRank : String → Nat :=
  fun h => if h = "H1" then 2 else if h = "H3" then 1 else 0

/-- C5: Diff correctness of the resolver: for every DAG and every known set
containing the root, Missing(root, known) is empty; for an empty known set,
Missing(root, empty) is exactly the set of hashes reachable from the root
(acyclicity given by a topological rank bounded by the store size); and on
the example DAG where H1 has children H2, H3 and H3 has child H4,
Missing(H1, only H3 known) is exactly the set with H1 and H2. -/
theorem C5_diff_correctness :
    (∀ (store : List (String × List String)) (root : String) (known : List String),
      root ∈ known → Missing store root known = []) ∧
    (∀ (store : List (String × List String)) (rank : String → Nat) (root : String),
      (∀ p ∈ store, ∀ c ∈ p.2, rank c < rank p.1) →
      rank root ≤ store.length →
      ∀ h, h ∈ Missing store root [] ↔ ReachableFrom store root h) ∧
    (∀ h, h ∈ Missing exampleStore "H1" ["H3"] ↔ (h = "H1" ∨ h = "H2")) := by
  refine ⟨?_, ?_, ?_⟩
  · intro store root known hroot
    simp [Missing, missingFrom, hroot]
  · intro store rank root hrank hroot h
    constructor
    · exact missingFrom_sound store [] _ root h
    · intro hr
      exact missingFrom_complete store rank hrank root h hr _
        (Nat.lt_succ_of_le hroot)
  · have heval : Missing exampleStore "H1" ["H3"] = ["H1", "H2"] := by decide
    intro h
    rw [heval]
    simp

theorem C5_diff_correctness_witness :
    ("H1" ∈ ["H1"] ∧ Missing exampleStore "H1" ["H1"] = []) ∧
    (∀ p ∈ exampleStore, ∀ c ∈ p.2, exampleRank c < exampleRank p.1) ∧
    exampleRank "H1" ≤ exampleStore.length ∧
    ("H4" ∈ Missing exampleStore "H1" [] ↔ ReachableFrom exampleStore "H1" "H4") :=
  ⟨⟨by decide, C5_diff_correctness.1 exampleStore "H1" ["H1"] (by decide)⟩,
    by decide, by decide,
    C5_diff_correctness.2.1 exampleStore exampleRank "H1" (by decide) (by decide) "H4"⟩
